import Mathlib

/-!
Verification development for the `calculator` repository: a three-stage
pipeline (tokenizer, tree builder, evaluator) turning arithmetic text into
an exact decimal value.  The Rust sources under `src/` are embedded
shallowly below; the external `rust_decimal` crate is modelled from the
specification's data-model section.
-/

namespace Calculator

/-! ## Decimal

Modelled from the spec: `rust_decimal::Decimal` is an external crate, not
part of this repository.  The spec describes it as "an exact fixed-point
number — a signed integer magnitude (96-bit range) paired with a scale
(0–28 fractional digits)", with a minimum and maximum representable value.
We represent it as a signed integer mantissa with a scale; the checked
operations compute the exact result and fail when it is not representable.
-/

/-- Largest mantissa magnitude: `2 ^ 96 - 1`. -/
def maxMantissa : ℕ := 79228162514264337593543950335

/-- Modelled from the spec: an exact fixed-point number, a signed integer
mantissa paired with a decimal scale.  The value denoted is
`mantissa / 10 ^ scale`. -/
structure Decimal where
  mantissa : ℤ
  scale : ℕ
deriving DecidableEq

/-- Representability bound from the spec: 96-bit magnitude, scale 0–28. -/
def Decimal.valid (d : Decimal) : Prop :=
  d.mantissa.natAbs ≤ maxMantissa ∧ d.scale ≤ 28

instance (d : Decimal) : Decidable d.valid := by
  unfold Decimal.valid; infer_instance

/-- Rational value denoted by a decimal. -/
def Decimal.toRat (d : Decimal) : ℚ :=
  (d.mantissa : ℚ) / (10 : ℚ) ^ d.scale

def Decimal.zero : Decimal := ⟨0, 0⟩

def Decimal.one : Decimal := ⟨1, 0⟩

/-- Modelled from the spec: the maximum representable value `Decimal::MAX`. -/
def Decimal.MAX : Decimal := ⟨(maxMantissa : ℤ), 0⟩

/-- Modelled from the spec: the minimum representable value `Decimal::MIN`. -/
def Decimal.MIN : Decimal := ⟨-(maxMantissa : ℤ), 0⟩

/-- Strip trailing decimal zeros from a mantissa, lowering the scale.  The
scale itself bounds the number of strippable zeros, so it doubles as fuel. -/
def normLoop : ℤ → ℕ → ℤ × ℕ
  | m, 0 => (m, 0)
  | m, s + 1 => if m % 10 = 0 then normLoop (m / 10) s else (m, s + 1)

/-- Modelled from the spec: build the decimal denoting `m / 10 ^ s` if that
value is representable (96-bit magnitude, scale at most 28), else `none`. -/
def mkDecimal (m : ℤ) (s : ℕ) : Option Decimal :=
  let ms := normLoop m s
  if ms.2 ≤ 28 ∧ ms.1.natAbs ≤ maxMantissa then some ⟨ms.1, ms.2⟩ else none

/-- Modelled from the spec: `Decimal::checked_add` — exact sum, `none` on
range overflow. -/
def Decimal.checked_add (a b : Decimal) : Option Decimal :=
  let s := max a.scale b.scale
  mkDecimal (a.mantissa * 10 ^ (s - a.scale) + b.mantissa * 10 ^ (s - b.scale)) s

/-- Modelled from the spec: `Decimal::checked_sub` — exact difference,
`none` on range overflow. -/
def Decimal.checked_sub (a b : Decimal) : Option Decimal :=
  let s := max a.scale b.scale
  mkDecimal (a.mantissa * 10 ^ (s - a.scale) - b.mantissa * 10 ^ (s - b.scale)) s

/-- Modelled from the spec: `Decimal::checked_mul` — exact product, `none`
when it is not representable. -/
def Decimal.checked_mul (a b : Decimal) : Option Decimal :=
  mkDecimal (a.mantissa * b.mantissa) (a.scale + b.scale)

/-- Modelled from the spec: `Decimal::checked_div` — `none` on division by
zero (the spec: "checked divide (covers division by zero)"), else the exact
quotient when representable. -/
def Decimal.checked_div (a b : Decimal) : Option Decimal :=
  if b.mantissa = 0 then none
  else
    let num : ℤ := a.mantissa * 10 ^ b.scale
    let den : ℤ := b.mantissa * 10 ^ a.scale
    match (List.range 29).find? (fun s => num * 10 ^ s % den == 0) with
    | none => none
    | some s => mkDecimal (num * 10 ^ s / den) s

/-- Modelled from the spec: unary negation of a decimal. -/
def Decimal.neg (a : Decimal) : Decimal := ⟨-a.mantissa, a.scale⟩

/-- Modelled from the spec: `Decimal::signum`, a decimal that is 0 for zero,
1 for positive, -1 for negative values. -/
def Decimal.signum (a : Decimal) : Decimal := ⟨a.mantissa.sign, 0⟩

/-- Modelled from the spec: numeric order on decimals (`PartialOrd`),
compared by cross-multiplied mantissas. -/
def Decimal.le (a b : Decimal) : Bool :=
  decide (a.mantissa * 10 ^ b.scale ≤ b.mantissa * 10 ^ a.scale)

/-! ## Errors of the `rust_decimal` crate

Modelled from the spec: `rust_decimal::Error` carries the two arithmetic
range errors used by the evaluator plus literal-parse failures (the spec's
ValueError reasons: malformed digits, precision exceeded). -/

inductive DecError where
  | errorString
  | exceedsMaximumPossibleValue
  | lessThanMinimumPossibleValue
  | scaleExceedsMaximumPrecision
deriving DecidableEq

/-! ## Tokenizer (src/parser/tokenizer.rs)

The input string is split on the single-character separators, separators
are detached from the chunk they terminate, chunks are split on
whitespace, trimmed and filtered, and every remaining chunk is mapped to
one token.  Lists of characters stand for Rust string slices. -/

inductive Operator where
  | add
  | sub
  | mul
  | div
deriving DecidableEq

inductive Token where
  | value (v : Decimal)
  | operator (op : Operator)
  | groupStart
  | groupEnd
deriving DecidableEq

/-- Embeds `is_separator`: whether a character is a token separator. -/
def is_separator (c : Char) : Bool :=
  c == '+' || c == '-' || c == '*' || c == '/' || c == '(' || c == ')'

/-- Embeds `str::split_inclusive`: split after every character satisfying
the predicate, keeping it at the end of its chunk; no empty chunks. -/
def splitInclusive (p : Char → Bool) : List Char → List (List Char)
  | [] => []
  | c :: cs =>
    if p c then [c] :: splitInclusive p cs
    else
      match splitInclusive p cs with
      | [] => [[c]]
      | chunk :: rest => (c :: chunk) :: rest

/-- Embeds the first `flat_map` of `tokenize`: detach a trailing separator
from a chunk, yielding the pair `[chunk, separator]` (the separator part is
empty when the chunk does not end in a separator). -/
def sep_off (chunk : List Char) : List (List Char) :=
  match chunk.getLast? with
  | some c => if is_separator c then [chunk.dropLast, [c]] else [chunk, []]
  | none => [chunk, []]

/-- Whitespace predicate used by `str::split_whitespace` and `str::trim`. -/
def isWs (c : Char) : Bool := c.isWhitespace

/-- Split at every character satisfying the predicate, dropping the
separator characters themselves; the result is always nonempty and may
contain empty pieces. -/
def splitOnPred (p : Char → Bool) : List Char → List (List Char)
  | [] => [[]]
  | c :: cs =>
    if p c then [] :: splitOnPred p cs
    else
      match splitOnPred p cs with
      | [] => [[c]]
      | piece :: rest => (c :: piece) :: rest

/-- Embeds `str::split_whitespace`: whitespace-separated pieces, empties
dropped. -/
def split_whitespace (l : List Char) : List (List Char) :=
  (splitOnPred isWs l).filter (fun piece => !piece.isEmpty)

/-- Embeds `str::trim`: drop leading and trailing whitespace. -/
def trim (l : List Char) : List Char :=
  ((l.dropWhile isWs).reverse.dropWhile isWs).reverse

/-- Modelled from the spec: base-16 digit value of a character. -/
def hexVal? (c : Char) : Option ℕ :=
  if c.isDigit then some (c.toNat - 48)
  else if 'a' ≤ c ∧ c ≤ 'f' then some (c.toNat - 87)
  else if 'A' ≤ c ∧ c ≤ 'F' then some (c.toNat - 55)
  else none

/-- Modelled from the spec: accumulate base-16 digits left to right. -/
def hexValAux : ℕ → List Char → Option ℕ
  | acc, [] => some acc
  | acc, c :: cs =>
    match hexVal? c with
    | some d => hexValAux (16 * acc + d) cs
    | none => none

/-- Modelled from the spec: accumulate base-10 digits left to right,
failing on any non-digit character. -/
def digitsValAux : ℕ → List Char → Option ℕ
  | acc, [] => some acc
  | acc, c :: cs =>
    if c.isDigit then digitsValAux (10 * acc + (c.toNat - 48)) cs else none

/-- Split a literal at its first decimal point, if any. -/
def splitAtDot : List Char → List Char × Option (List Char)
  | [] => ([], none)
  | c :: r =>
    if c = '.' then ([], some r)
    else
      match splitAtDot r with
      | (ip, f) => (c :: ip, f)

/-- Modelled from the spec: `rust_decimal`'s `from_str` — a base-10 decimal
literal with an optional sign and at most one decimal point; fails on
malformed digits, on more than 28 fractional digits, and on mantissa
overflow. -/
def parseDec (chunk : List Char) : Except DecError Decimal :=
  let sr : ℤ × List Char :=
    match chunk with
    | '-' :: r => (-1, r)
    | '+' :: r => (1, r)
    | r => (1, r)
  match splitAtDot sr.2 with
  | (ip, none) =>
    if ip.isEmpty then Except.error DecError.errorString
    else
      match digitsValAux 0 ip with
      | none => Except.error DecError.errorString
      | some v =>
        if v ≤ maxMantissa then Except.ok ⟨sr.1 * v, 0⟩
        else Except.error DecError.exceedsMaximumPossibleValue
  | (ip, some fp) =>
    if fp.contains '.' then Except.error DecError.errorString
    else if ip.isEmpty && fp.isEmpty then Except.error DecError.errorString
    else
      match digitsValAux 0 ip, digitsValAux 0 fp with
      | some iv, some fv =>
        if fp.length ≤ 28 then
          let m : ℤ := sr.1 * (iv * 10 ^ fp.length + fv)
          if m.natAbs ≤ maxMantissa then Except.ok ⟨m, fp.length⟩
          else Except.error DecError.exceedsMaximumPossibleValue
        else Except.error DecError.scaleExceedsMaximumPrecision
      | _, _ => Except.error DecError.errorString

/-- Embeds `parse_number`: a `0x` prefix switches to base-16 integer
parsing (scale 0, modelled from the spec's description of
`from_str_radix`), otherwise the chunk is a base-10 decimal literal. -/
def parse_number (chunk : List Char) : Except DecError Decimal :=
  match chunk with
  | '0' :: 'x' :: rest =>
    if rest.isEmpty then Except.error DecError.errorString
    else
      match hexValAux 0 rest with
      | none => Except.error DecError.errorString
      | some v =>
        if v ≤ maxMantissa then Except.ok ⟨(v : ℤ), 0⟩
        else Except.error DecError.exceedsMaximumPossibleValue
  | _ => parseDec chunk

/-- Embeds the final `map` of `tokenize`: identify a chunk as an operator,
a group delimiter, or a decimal literal. -/
def tokenOf (chunk : List Char) : Except DecError Token :=
  if chunk = ['+'] then Except.ok (Token.operator Operator.add)
  else if chunk = ['-'] then Except.ok (Token.operator Operator.sub)
  else if chunk = ['*'] then Except.ok (Token.operator Operator.mul)
  else if chunk = ['/'] then Except.ok (Token.operator Operator.div)
  else if chunk = ['('] then Except.ok Token.groupStart
  else if chunk = [')'] then Except.ok Token.groupEnd
  else (parse_number chunk).map Token.value

/-- Chunk pipeline of `tokenize`: split on separators inclusively, detach
trailing separators, split on whitespace, trim, and drop empty chunks. -/
def tokenize_chunks (l : List Char) : List (List Char) :=
  (((((splitInclusive is_separator l).flatMap sep_off).flatMap
    split_whitespace).map trim).filter (fun v => !v.isEmpty))

/-- Embeds `tokenize` on a list of characters. -/
def tokenizeL (l : List Char) : List (Except DecError Token) :=
  (tokenize_chunks l).map tokenOf

/-- Embeds `tokenize`: split an input string into a stream of tokens. -/
def tokenize (s : String) : List (Except DecError Token) :=
  tokenizeL s.data

instance {ε α : Type} [DecidableEq ε] [DecidableEq α] :
    DecidableEq (Except ε α) := fun
  | Except.ok a, Except.ok b => decidable_of_iff (a = b) (by simp)
  | Except.ok _, Except.error _ => isFalse (by simp)
  | Except.error _, Except.ok _ => isFalse (by simp)
  | Except.error e, Except.error f => decidable_of_iff (e = f) (by simp)

/-! ## Expression trees and the evaluator (src/engine.rs)

A `Node` is a leaf decimal value or a boxed expression; an `Expr` applies
one arithmetical operation to its node operands.  `tryEval` embeds the
`TryFrom<Node> for Decimal` and `TryFrom<Expr> for Decimal`
implementations: the `?` operator becomes an explicit match on the
sub-evaluation. -/

mutual

inductive Node where
  | value (v : Decimal)
  | expr (e : Expr)

inductive Expr where
  | add (lhs rhs : Node)
  | sub (lhs rhs : Node)
  | mul (lhs rhs : Node)
  | div (lhs rhs : Node)
  | neg (v : Node)

end

mutual

/-- Embeds `TryFrom<Node> for Decimal`. -/
def Node.tryEval : Node → Except DecError Decimal
  | Node.value v => Except.ok v
  | Node.expr e => Expr.tryEval e

/-- Embeds `TryFrom<Expr> for Decimal`: checked arithmetic with the
source's error classification on failure. -/
def Expr.tryEval : Expr → Except DecError Decimal
  | Expr.add lhs rhs =>
    match Node.tryEval lhs with
    | Except.error e => Except.error e
    | Except.ok lv =>
      match Node.tryEval rhs with
      | Except.error e => Except.error e
      | Except.ok rv =>
        match Decimal.checked_add lv rv with
        | some v => Except.ok v
        | none => Except.error DecError.exceedsMaximumPossibleValue
  | Expr.sub lhs rhs =>
    match Node.tryEval lhs with
    | Except.error e => Except.error e
    | Except.ok lv =>
      match Node.tryEval rhs with
      | Except.error e => Except.error e
      | Except.ok rv =>
        match Decimal.checked_sub lv rv with
        | some v => Except.ok v
        | none => Except.error DecError.lessThanMinimumPossibleValue
  | Expr.mul lhs rhs =>
    match Node.tryEval lhs with
    | Except.error e => Except.error e
    | Except.ok lv =>
      match Node.tryEval rhs with
      | Except.error e => Except.error e
      | Except.ok rv =>
        match Decimal.checked_mul lv rv with
        | some v => Except.ok v
        | none =>
          Except.error
            (if lv.signum = rv.signum then DecError.exceedsMaximumPossibleValue
             else DecError.lessThanMinimumPossibleValue)
  | Expr.div lhs rhs =>
    match Node.tryEval lhs with
    | Except.error e => Except.error e
    | Except.ok lv =>
      match Node.tryEval rhs with
      | Except.error e => Except.error e
      | Except.ok rv =>
        match Decimal.checked_div lv rv with
        | some v => Except.ok v
        | none =>
          Except.error
            (if Decimal.le Decimal.zero lv then DecError.exceedsMaximumPossibleValue
             else DecError.lessThanMinimumPossibleValue)
  | Expr.neg v =>
    match Node.tryEval v with
    | Except.error e => Except.error e
    | Except.ok x => Except.ok (Decimal.neg x)

end

/-! ## Parse errors (src/parser/error.rs) -/

inductive Error where
  | value (e : DecError)
  | uninitializedGroup
  | unterminatedGroup
  | unexpectedOperator (op : Operator)
  | unexpectedNode (n : Node)
  | empty
  | leftoverElements

/-! ## Tree builder (src/parser/ast.rs)

The builder's `VecDeque<Element>` buffer is embedded as a list stored
BACK TO FRONT: the list head is the deque's back, so `push_back` and
`pop_back` act on the head and `buffer[n-1]`, `buffer[n-2]` are the first
and second list entries.  `build`, which consumes the deque from the
front, therefore works on the reversed list. -/

inductive Element where
  | node (n : Node)
  | operator (op : Operator)

structure Builder where
  buffer : List Element

def Builder.new : Builder := ⟨[]⟩

/-- Embeds the body of `Builder::add_node` on the back-to-front buffer.
The length-0, length-1 and length-n cases of the source appear in the same
order; the recursive calls mirror the source's `self.add_node(..)` calls on
the shortened buffer. -/
def addNodeAux : List Element → Node → Except Error (List Element)
  | [], node => Except.ok [Element.node node]
  | [Element.operator Operator.sub], node =>
    addNodeAux [] (Node.expr (Expr.neg node))
  | [_], _ => Except.error Error.leftoverElements
  | Element.operator Operator.sub :: Element.operator op2 :: rest, node =>
    addNodeAux (Element.operator op2 :: rest) (Node.expr (Expr.neg node))
  | Element.operator op :: Element.node prev :: rest, node =>
    match op with
    | Operator.mul => addNodeAux rest (Node.expr (Expr.mul prev node))
    | Operator.div => addNodeAux rest (Node.expr (Expr.div prev node))
    | _ =>
      Except.ok (Element.node node :: Element.operator op :: Element.node prev :: rest)
  | _ :: _ :: _, node => Except.error (Error.unexpectedNode node)

/-- Embeds `Builder::add_node`. -/
def Builder.add_node (b : Builder) (node : Node) : Except Error Builder :=
  (addNodeAux b.buffer node).map Builder.mk

/-- Trailing buffer shape test: `matches!(buffer.back(), None |
Some(Element::Operator(_)))` is the negation of this. -/
def ends_with_node : List Element → Bool
  | Element.node _ :: _ => true
  | _ => false

/-- Embeds `Builder::add_operator`: rejected when the operator is not
`Sub` and the buffer is empty or ends in an operator. -/
def Builder.add_operator (b : Builder) (op : Operator) : Except Error Builder :=
  if op ≠ Operator.sub ∧ ends_with_node b.buffer = false then
    Except.error (Error.unexpectedOperator op)
  else Except.ok ⟨Element.operator op :: b.buffer⟩

/-- Embeds the `while let` loop of `Builder::build`, folding remaining
`Add`/`Sub` pairs left to right over the front-to-back element list.
The result `none` models the source's `unreachable!()` panic in the
multiplicative arm. -/
def buildLoop : Node → Operator → List Element → Option Node
  | prevNode, _, [] => some prevNode
  | prevNode, prevOp, Element.node node :: rest =>
    match prevOp with
    | Operator.add => buildLoop (Node.expr (Expr.add prevNode node)) prevOp rest
    | Operator.sub => buildLoop (Node.expr (Expr.sub prevNode node)) prevOp rest
    | _ => none
  | prevNode, _, Element.operator op :: rest => buildLoop prevNode op rest

/-- Embeds `Builder::build` on the front-to-back buffer (hence the
`reverse`).  The result `none` models the source's `unreachable!()`
panics: the two front pops that assume a leading `Node, Operator` shape,
and the multiplicative arm of the fold. -/
def Builder.build (b : Builder) : Option (Except Error Node) :=
  match b.buffer.reverse with
  | [] => some (Except.error Error.empty)
  | [Element.node node] => some (Except.ok node)
  | [Element.operator op] => some (Except.error (Error.unexpectedOperator op))
  | [_, _] => some (Except.error Error.leftoverElements)
  | Element.node prevNode :: Element.operator prevOp :: rest =>
    (buildLoop prevNode prevOp rest).map Except.ok
  | _ => none

/-! ## Parser (src/parser.rs) -/

/-- Embeds the `while let` loop of `parse_tokens` together with its
recursive descent into groups.  The first argument is fuel: the Rust loop
consumes the shared token iterator, which the fuel bounds; `none` is
returned when fuel runs out (never on the inputs below) or when `build`
panics.  On success the unconsumed remainder of the token stream is
returned alongside the node, mirroring the shared iterator. -/
def parseLoop :
    ℕ → Builder → List (Except DecError Token) →
    Option (Except Error (Node × List (Except DecError Token)))
  | 0, _, _ => none
  | _ + 1, _, [] => some (Except.error Error.unterminatedGroup)
  | fuel + 1, b, t :: rest =>
    match t with
    | Except.error e => some (Except.error (Error.value e))
    | Except.ok (Token.value v) =>
      match b.add_node (Node.value v) with
      | Except.error e => some (Except.error e)
      | Except.ok b2 => parseLoop fuel b2 rest
    | Except.ok (Token.operator op) =>
      match b.add_operator op with
      | Except.error e => some (Except.error e)
      | Except.ok b2 => parseLoop fuel b2 rest
    | Except.ok Token.groupStart =>
      match parseLoop fuel Builder.new rest with
      | none => none
      | some (Except.error e) => some (Except.error e)
      | some (Except.ok (n, rest2)) =>
        match b.add_node n with
        | Except.error e => some (Except.error e)
        | Except.ok b2 => parseLoop fuel b2 rest2
    | Except.ok Token.groupEnd =>
      (Builder.build b).map (fun r => r.map (fun n => (n, rest)))

/-- Embeds `parse`: tokenize, append the synthetic terminating `GroupEnd`,
parse the stream, and reject leftover tokens with `UninitializedGroup`.
The fuel passed to `parseLoop` exceeds the number of loop iterations and
group entries, so it never runs out. -/
def parse (input : String) : Option (Except Error Node) :=
  let tokens := tokenize input ++ [Except.ok Token.groupEnd]
  match parseLoop (2 * tokens.length + 2) Builder.new tokens with
  | none => none
  | some (Except.error e) => some (Except.error e)
  | some (Except.ok (n, rest)) =>
    some (if rest.isEmpty then Except.ok n else Except.error Error.uninitializedGroup)

/-- Full pipeline of `cli::try_calculate` minus input acquisition: parse
the line, then evaluate the tree, keeping the first error. -/
def interpret (input : String) : Option (Except Error Decimal) :=
  match parse input with
  | none => none
  | some (Except.error e) => some (Except.error e)
  | some (Except.ok n) =>
    some
      (match Node.tryEval n with
       | Except.ok d => Except.ok d
       | Except.error e => Except.error (Error.value e))

/-! ## Claim theorems -/

/-- Claim C1: for the input `"1 + 2 * 3"`, parse followed by evaluate
returns `Ok(7)`; the builder contracts the `Mul` eagerly on node arrival
and defers the `Add` to `build`, so the parsed tree is
`Add(1, Mul(2, 3))` and multiplication binds tighter than addition
without parentheses. -/
theorem C1_precedence :
    parse "1 + 2 * 3" =
      some (Except.ok (Node.expr (Expr.add (Node.value ⟨1, 0⟩)
        (Node.expr (Expr.mul (Node.value ⟨2, 0⟩) (Node.value ⟨3, 0⟩)))))) ∧
    interpret "1 + 2 * 3" = some (Except.ok ⟨7, 0⟩) :=
  ⟨rfl, rfl⟩

/-- Claim C2: every smoke example of the spec evaluates as listed through
the full parse-then-evaluate pipeline; the decimal `⟨5, 1⟩` produced for
`"1 / 2"` denotes the rational 0.5. -/
theorem C2_smoke_examples :
    interpret "1 + 1" = some (Except.ok ⟨2, 0⟩) ∧
    interpret "1 - 1" = some (Except.ok ⟨0, 0⟩) ∧
    interpret "1 * 2" = some (Except.ok ⟨2, 0⟩) ∧
    interpret "1 / 2" = some (Except.ok ⟨5, 1⟩) ∧
    (Decimal.toRat ⟨5, 1⟩ = 1 / 2) ∧
    interpret "-1" = some (Except.ok ⟨-1, 0⟩) ∧
    interpret "1000" = some (Except.ok ⟨1000, 0⟩) ∧
    interpret "0x539" = some (Except.ok ⟨1337, 0⟩) ∧
    interpret "(1 + 2) * 3" = some (Except.ok ⟨9, 0⟩) :=
  ⟨rfl, rfl, rfl, rfl, by norm_num [Decimal.toRat], rfl, rfl, rfl, rfl⟩

/-- Claim C5: adding 1 to the maximum representable decimal fails with
`ExceedsMaximumPossibleValue`, and subtracting 1 from the minimum fails
with `LessThanMinimumPossibleValue`. -/
theorem C5_overflow_laws :
    Expr.tryEval (Expr.add (Node.value Decimal.MAX) (Node.value Decimal.one)) =
      Except.error DecError.exceedsMaximumPossibleValue ∧
    Expr.tryEval (Expr.sub (Node.value Decimal.MIN) (Node.value Decimal.one)) =
      Except.error DecError.lessThanMinimumPossibleValue :=
  ⟨rfl, rfl⟩

/-! ## Helper lemmas for the arithmetic-error claims -/

theorem normLoop_zero (s : ℕ) : normLoop 0 s = (0, 0) := by
  induction s with
  | zero => rfl
  | succ n ih => simpa [normLoop] using ih

/-- When a checked multiplication fails, neither operand is zero: a zero
operand makes the exact product zero, which is always representable. -/
theorem checked_mul_mantissa_ne_zero {a b : Decimal}
    (h : Decimal.checked_mul a b = none) :
    a.mantissa ≠ 0 ∧ b.mantissa ≠ 0 := by
  constructor
  · intro hz
    simp [Decimal.checked_mul, hz, mkDecimal, normLoop_zero] at h
  · intro hz
    simp [Decimal.checked_mul, hz, mkDecimal, normLoop_zero] at h

theorem le_zero_left_iff (d : Decimal) :
    Decimal.le Decimal.zero d = true ↔ 0 ≤ d.mantissa := by
  simp [Decimal.le, Decimal.zero]

theorem le_zero_left_false_iff (d : Decimal) :
    Decimal.le Decimal.zero d = false ↔ d.mantissa < 0 := by
  simp [Decimal.le, Decimal.zero]

theorem sign_eq_iff_classes {x y : ℤ} (hx : x ≠ 0) (hy : y ≠ 0) :
    Int.sign x = Int.sign y ↔ ((0 ≤ x ∧ 0 ≤ y) ∨ (x < 0 ∧ y < 0)) := by
  rcases lt_trichotomy x 0 with h1 | h1 | h1
  · rw [Int.sign_eq_neg_one_iff_neg.mpr h1]
    rcases lt_trichotomy y 0 with h2 | h2 | h2
    · rw [Int.sign_eq_neg_one_iff_neg.mpr h2]; omega
    · exact absurd h2 hy
    · rw [Int.sign_eq_one_iff_pos.mpr h2]; omega
  · exact absurd h1 hx
  · rw [Int.sign_eq_one_iff_pos.mpr h1]
    rcases lt_trichotomy y 0 with h2 | h2 | h2
    · rw [Int.sign_eq_neg_one_iff_neg.mpr h2]; omega
    · exact absurd h2 hy
    · rw [Int.sign_eq_one_iff_pos.mpr h2]; omega

/-- Claim C3: division of any representable decimal by zero fails, with
`ExceedsMaximumPossibleValue` for a non-negative dividend and
`LessThanMinimumPossibleValue` for a negative one; and in general a failed
checked divide is classified by the sign of the left operand alone. -/
theorem C3_div_by_zero_classification :
    (∀ x : Decimal, x.valid → Decimal.le Decimal.zero x = true →
      Expr.tryEval (Expr.div (Node.value x) (Node.value Decimal.zero)) =
        Except.error DecError.exceedsMaximumPossibleValue) ∧
    (∀ x : Decimal, x.valid → Decimal.le Decimal.zero x = false →
      Expr.tryEval (Expr.div (Node.value x) (Node.value Decimal.zero)) =
        Except.error DecError.lessThanMinimumPossibleValue) ∧
    (∀ l r : Decimal, Decimal.checked_div l r = none →
      Expr.tryEval (Expr.div (Node.value l) (Node.value r)) =
        Except.error
          (if Decimal.le Decimal.zero l then DecError.exceedsMaximumPossibleValue
           else DecError.lessThanMinimumPossibleValue)) := by
  have hdz : ∀ x : Decimal, Decimal.checked_div x Decimal.zero = none := by
    intro x; simp [Decimal.checked_div, Decimal.zero]
  refine ⟨?_, ?_, ?_⟩
  · intro x _ hle
    simp [Expr.tryEval, Node.tryEval, hdz x, hle]
  · intro x _ hle
    simp [Expr.tryEval, Node.tryEval, hdz x, hle]
  · intro l r h
    simp [Expr.tryEval, Node.tryEval, h]

/-- Witness for C3 at the concrete dividends 1 and -1 over the zero
divisor, and at the failing checked divide 1/3. -/
theorem C3_witness :
    Expr.tryEval (Expr.div (Node.value ⟨1, 0⟩) (Node.value Decimal.zero)) =
      Except.error DecError.exceedsMaximumPossibleValue ∧
    Expr.tryEval (Expr.div (Node.value ⟨-1, 0⟩) (Node.value Decimal.zero)) =
      Except.error DecError.lessThanMinimumPossibleValue ∧
    Expr.tryEval (Expr.div (Node.value ⟨1, 0⟩) (Node.value ⟨3, 0⟩)) =
      Except.error
        (if Decimal.le Decimal.zero ⟨1, 0⟩ then DecError.exceedsMaximumPossibleValue
         else DecError.lessThanMinimumPossibleValue) :=
  ⟨C3_div_by_zero_classification.1 ⟨1, 0⟩ (by decide) (by decide),
   C3_div_by_zero_classification.2.1 ⟨-1, 0⟩ (by decide) (by decide),
   C3_div_by_zero_classification.2.2 ⟨1, 0⟩ ⟨3, 0⟩ (by decide)⟩

/-- Claim C4: whenever checked multiplication of representable decimals
fails, the error is `ExceedsMaximumPossibleValue` exactly when the two
operands have the same sign (both non-negative or both negative), and
`LessThanMinimumPossibleValue` otherwise. -/
theorem C4_mul_overflow_classification (a b : Decimal)
    (_hva : a.valid) (_hvb : b.valid)
    (h : Decimal.checked_mul a b = none) :
    (Expr.tryEval (Expr.mul (Node.value a) (Node.value b)) =
        Except.error DecError.exceedsMaximumPossibleValue ↔
      ((Decimal.le Decimal.zero a = true ∧ Decimal.le Decimal.zero b = true) ∨
       (Decimal.le Decimal.zero a = false ∧ Decimal.le Decimal.zero b = false))) ∧
    (Expr.tryEval (Expr.mul (Node.value a) (Node.value b)) =
        Except.error DecError.lessThanMinimumPossibleValue ↔
      ¬ ((Decimal.le Decimal.zero a = true ∧ Decimal.le Decimal.zero b = true) ∨
         (Decimal.le Decimal.zero a = false ∧ Decimal.le Decimal.zero b = false))) := by
  obtain ⟨ha, hb⟩ := checked_mul_mantissa_ne_zero h
  have heval : Expr.tryEval (Expr.mul (Node.value a) (Node.value b)) =
      Except.error
        (if a.signum = b.signum then DecError.exceedsMaximumPossibleValue
         else DecError.lessThanMinimumPossibleValue) := by
    simp [Expr.tryEval, Node.tryEval, h]
  have hsign : a.signum = b.signum ↔
      ((Decimal.le Decimal.zero a = true ∧ Decimal.le Decimal.zero b = true) ∨
       (Decimal.le Decimal.zero a = false ∧ Decimal.le Decimal.zero b = false)) := by
    rw [show (a.signum = b.signum) ↔ Int.sign a.mantissa = Int.sign b.mantissa from
      by simp [Decimal.signum]]
    rw [sign_eq_iff_classes ha hb]
    simp [le_zero_left_iff, le_zero_left_false_iff]
  by_cases hs : a.signum = b.signum
  · rw [heval, if_pos hs]
    constructor
    · exact ⟨fun _ => hsign.mp hs, fun _ => rfl⟩
    · constructor
      · intro hfalse; exact absurd hfalse (by simp)
      · intro hc; exact absurd (hsign.mp hs) hc
  · rw [heval, if_neg hs]
    constructor
    · constructor
      · intro hfalse; exact absurd hfalse (by simp)
      · intro hc; exact absurd (hsign.mpr hc) hs
    · exact ⟨fun _ => fun hc => hs (hsign.mpr hc), fun _ => rfl⟩

/-- Witness for C4 at the overflowing product `MAX * MAX` (same sign) and
`MAX * MIN` (opposite signs). -/
theorem C4_witness :
    (Expr.tryEval (Expr.mul (Node.value Decimal.MAX) (Node.value Decimal.MAX)) =
      Except.error DecError.exceedsMaximumPossibleValue) ∧
    (Expr.tryEval (Expr.mul (Node.value Decimal.MAX) (Node.value Decimal.MIN)) =
      Except.error DecError.lessThanMinimumPossibleValue) :=
  ⟨(C4_mul_overflow_classification Decimal.MAX Decimal.MAX (by decide) (by decide)
      rfl).1.mpr (Or.inl ⟨by decide, by decide⟩),
   (C4_mul_overflow_classification Decimal.MAX Decimal.MIN (by decide) (by decide)
      rfl).2.mpr (by decide)⟩

/-- Claim C10: the evaluator's error kind for `Add` and `Sub` is fixed per
operator, independent of the overflow direction: any failed checked add
reports `ExceedsMaximumPossibleValue` (even for `Add(MIN, MIN)`, whose true
value lies below the minimum) and any failed checked subtract reports
`LessThanMinimumPossibleValue` (even for `Sub(MAX, MIN)`, whose true value
lies above the maximum). -/
theorem C10_add_sub_error_direction :
    (∀ l r : Decimal, Decimal.checked_add l r = none →
      Expr.tryEval (Expr.add (Node.value l) (Node.value r)) =
        Except.error DecError.exceedsMaximumPossibleValue) ∧
    (∀ l r : Decimal, Decimal.checked_sub l r = none →
      Expr.tryEval (Expr.sub (Node.value l) (Node.value r)) =
        Except.error DecError.lessThanMinimumPossibleValue) ∧
    Expr.tryEval (Expr.add (Node.value Decimal.MIN) (Node.value Decimal.MIN)) =
      Except.error DecError.exceedsMaximumPossibleValue ∧
    Expr.tryEval (Expr.sub (Node.value Decimal.MAX) (Node.value Decimal.MIN)) =
      Except.error DecError.lessThanMinimumPossibleValue ∧
    Decimal.MIN.toRat + Decimal.MIN.toRat < Decimal.MIN.toRat ∧
    Decimal.MAX.toRat < Decimal.MAX.toRat - Decimal.MIN.toRat := by
  refine ⟨?_, ?_, rfl, rfl, ?_, ?_⟩
  · intro l r h; simp [Expr.tryEval, Node.tryEval, h]
  · intro l r h; simp [Expr.tryEval, Node.tryEval, h]
  · norm_num [Decimal.toRat, Decimal.MIN, maxMantissa]
  · norm_num [Decimal.toRat, Decimal.MAX, Decimal.MIN, maxMantissa]

/-- Witness for C10 at the concrete failing operations `MIN + MIN` and
`MAX - MIN`. -/
theorem C10_witness :
    Expr.tryEval (Expr.add (Node.value Decimal.MIN) (Node.value Decimal.MIN)) =
      Except.error DecError.exceedsMaximumPossibleValue ∧
    Expr.tryEval (Expr.sub (Node.value Decimal.MAX) (Node.value Decimal.MIN)) =
      Except.error DecError.lessThanMinimumPossibleValue :=
  ⟨C10_add_sub_error_direction.1 Decimal.MIN Decimal.MIN rfl,
   C10_add_sub_error_direction.2.1 Decimal.MAX Decimal.MIN rfl⟩

/-- Test for a parse result that is an `UnexpectedNode` error, avoiding
the node payload. -/
def isUnexpectedNodeResult : Option (Except Error Node) → Bool
  | some (Except.error (Error.unexpectedNode _)) => true
  | _ => false

/-- Counterexample to claim C6: `parse ")1 + 1"` does not return
`UninitializedGroup` — the leading `GroupEnd` terminates an empty
top-level expression, so `build` reports `Empty`; and `parse "1 1"` does
not return `UnexpectedNode` — the second node arrives at a length-1 buffer
whose catch-all arm reports `LeftoverElements`. -/
theorem C6_counterexample :
    parse ")1 + 1" ≠ some (Except.error Error.uninitializedGroup) ∧
    isUnexpectedNodeResult (parse "1 1") = false ∧
    parse ")1 + 1" = some (Except.error Error.empty) ∧
    parse "1 1" = some (Except.error Error.leftoverElements) := by
  refine ⟨?_, rfl, rfl, rfl⟩
  intro hcontra
  rw [show parse ")1 + 1" = some (Except.error Error.empty) from rfl] at hcontra
  simp at hcontra

/-- Claim C6 as amended: each malformed input maps to its actual parse
error — `"(1 + 1"` to `UnterminatedGroup`, an extra trailing `")"` to
`UninitializedGroup`, a leading `")"` to `Empty`, two adjacent nodes
(`"1 1"`) to `LeftoverElements`, a dangling operator (`"1 +"`) to
`LeftoverElements`, and empty input to `Empty`. -/
theorem C6_malformed_inputs :
    parse "(1 + 1" = some (Except.error Error.unterminatedGroup) ∧
    parse "1 + 1)" = some (Except.error Error.uninitializedGroup) ∧
    parse ")1 + 1" = some (Except.error Error.empty) ∧
    parse "1 1" = some (Except.error Error.leftoverElements) ∧
    parse "1 +" = some (Except.error Error.leftoverElements) ∧
    parse "" = some (Except.error Error.empty) :=
  ⟨rfl, rfl, rfl, rfl, rfl, rfl⟩

/-- Claim C7: a `Sub` token directly after another operator, or as the
first token of an expression or group, is interpreted as unary negation,
never as binary subtraction: a node arriving at a buffer holding exactly
one `Sub` is wrapped in `Neg`, as is a node arriving at a buffer ending in
any operator followed by `Sub`; concretely, `"- -1"` parses to two nested
`Neg` nodes and evaluates to 1, and `"2 * -3"` evaluates to -6. -/
theorem C7_unary_minus :
    parse "- -1" =
      some (Except.ok (Node.expr (Expr.neg (Node.expr (Expr.neg (Node.value ⟨1, 0⟩)))))) ∧
    interpret "- -1" = some (Except.ok ⟨1, 0⟩) ∧
    interpret "2 * -3" = some (Except.ok ⟨-6, 0⟩) ∧
    (∀ n : Node,
      addNodeAux [Element.operator Operator.sub] n =
        Except.ok [Element.node (Node.expr (Expr.neg n))]) ∧
    (∀ (n : Node) (op : Operator) (rest : List Element),
      addNodeAux (Element.operator Operator.sub :: Element.operator op :: rest) n =
        addNodeAux (Element.operator op :: rest) (Node.expr (Expr.neg n))) :=
  ⟨rfl, rfl, rfl, fun _ => rfl, fun _ _ _ => rfl⟩

/-- Claim C8 fails as a code bug: the buffer of a builder reached through
successful `add_operator` calls need not alternate `Node`, `Operator` —
three `Sub` operators in a row are all accepted (the `Sub` exemption that
enables unary-minus chains), and `build` on that three-element buffer hits
the `unreachable!()` panic (modelled as `none`) that its comment claims is
impossible; the whole pipeline panics on the input `"- - -"`. -/
theorem C8_reachable_build_panic :
    (do
      let b1 ← Builder.new.add_operator Operator.sub
      let b2 ← b1.add_operator Operator.sub
      b2.add_operator Operator.sub :
        Except Error Builder) =
      Except.ok ⟨[Element.operator Operator.sub, Element.operator Operator.sub,
        Element.operator Operator.sub]⟩ ∧
    Builder.build ⟨[Element.operator Operator.sub, Element.operator Operator.sub,
      Element.operator Operator.sub]⟩ = none ∧
    parse "- - -" = none :=
  ⟨rfl, rfl, rfl⟩

/-! ## Whitespace lemmas for the tokenizer (claim C9)

The stages of `tokenize` are related to the raw character stream: a
whitespace character is a pure token-stream boundary.  `chunkStream`
abbreviates the pipeline before the (no-op) trim and filter stages. -/

def chunkStream (l : List Char) : List (List Char) :=
  ((splitInclusive is_separator l).flatMap sep_off).flatMap split_whitespace

theorem sep_not_ws {c : Char} (h : is_separator c = true) : isWs c = false := by
  simp only [is_separator, Bool.or_eq_true, beq_iff_eq] at h
  rcases h with ((((h | h) | h) | h) | h) | h <;> subst h <;> rfl

theorem ws_not_sep {c : Char} (h : isWs c = true) : is_separator c = false := by
  cases hs : is_separator c
  · rfl
  · exact absurd h (by simp [sep_not_ws hs])

theorem splitOnPred_ne_nil (p : Char → Bool) (l : List Char) :
    splitOnPred p l ≠ [] := by
  cases l with
  | nil => simp [splitOnPred]
  | cons c cs =>
    simp only [splitOnPred]
    cases hpc : p c
    · simp only [Bool.false_eq_true, if_false]
      cases h : splitOnPred p cs <;> simp
    · simp

theorem splitOnPred_cons_pos {p : Char → Bool} {c : Char} (hc : p c = true)
    (l : List Char) : splitOnPred p (c :: l) = [] :: splitOnPred p l := by
  simp [splitOnPred, hc]

theorem splitOnPred_cons_neg {p : Char → Bool} {c : Char} (hc : p c = false)
    {l : List Char} {piece : List Char} {rest : List (List Char)}
    (h : splitOnPred p l = piece :: rest) :
    splitOnPred p (c :: l) = (c :: piece) :: rest := by
  simp [splitOnPred, hc, h]

theorem split_whitespace_cons_ws {c : Char} (hc : isWs c = true) (l : List Char) :
    split_whitespace (c :: l) = split_whitespace l := by
  simp [split_whitespace, splitOnPred_cons_pos hc]

theorem splitWs_cons_cons_ws {c c' : Char} (hc : isWs c = false)
    (hc' : isWs c' = true) (x : List Char) :
    split_whitespace (c :: c' :: x) = [c] :: split_whitespace (c' :: x) := by
  obtain ⟨piece, rest, hsop⟩ :
      ∃ piece rest, splitOnPred isWs x = piece :: rest := by
    cases h : splitOnPred isWs x with
    | nil => exact absurd h (splitOnPred_ne_nil isWs x)
    | cons piece rest => exact ⟨piece, rest, rfl⟩
  have h1 : splitOnPred isWs (c' :: x) = [] :: piece :: rest := by
    rw [splitOnPred_cons_pos hc', hsop]
  have h2 : splitOnPred isWs (c :: c' :: x) = [c] :: piece :: rest :=
    splitOnPred_cons_neg hc h1
  rw [split_whitespace, split_whitespace, h1, h2]
  simp [List.filter_cons]

theorem splitWs_cons_cons_nonws {c c' : Char} (hc : isWs c = false)
    (hc' : isWs c' = false) (x : List Char) :
    ∃ piece rest2,
      split_whitespace (c' :: x) = (c' :: piece) :: rest2 ∧
      split_whitespace (c :: c' :: x) = (c :: c' :: piece) :: rest2 := by
  obtain ⟨piece, rest, hsop⟩ :
      ∃ piece rest, splitOnPred isWs x = piece :: rest := by
    cases h : splitOnPred isWs x with
    | nil => exact absurd h (splitOnPred_ne_nil isWs x)
    | cons piece rest => exact ⟨piece, rest, rfl⟩
  have h1 : splitOnPred isWs (c' :: x) = (c' :: piece) :: rest :=
    splitOnPred_cons_neg hc' hsop
  have h2 : splitOnPred isWs (c :: c' :: x) = (c :: c' :: piece) :: rest :=
    splitOnPred_cons_neg hc h1
  refine ⟨piece, rest.filter (fun v => !v.isEmpty), ?_, ?_⟩
  · rw [split_whitespace, h1]; simp [List.filter_cons]
  · rw [split_whitespace, h2]; simp [List.filter_cons]

theorem split_whitespace_nil : split_whitespace [] = [] := rfl

theorem split_whitespace_single {c : Char} (hc : isWs c = false) :
    split_whitespace [c] = [[c]] := by
  have h : splitOnPred isWs [c] = [c] :: [] := splitOnPred_cons_neg hc rfl
  rw [split_whitespace, h]
  rfl

theorem splitInclusive_cons_sep {c : Char} (hc : is_separator c = true)
    (l : List Char) :
    splitInclusive is_separator (c :: l) = [c] :: splitInclusive is_separator l := by
  simp [splitInclusive, hc]

theorem splitInclusive_cons_nonsep {c : Char} (hc : is_separator c = false)
    {l : List Char} {ch : List Char} {rest : List (List Char)}
    (h : splitInclusive is_separator l = ch :: rest) :
    splitInclusive is_separator (c :: l) = (c :: ch) :: rest := by
  simp [splitInclusive, hc, h]

theorem splitInclusive_cons_of_nil {c : Char} (hc : is_separator c = false)
    {l : List Char} (h : splitInclusive is_separator l = []) :
    splitInclusive is_separator (c :: l) = [[c]] := by
  simp [splitInclusive, hc, h]

theorem splitInclusive_chunks_ne_nil (p : Char → Bool) (l : List Char) :
    ∀ ch ∈ splitInclusive p l, ch ≠ [] := by
  induction l with
  | nil => simp [splitInclusive]
  | cons c cs ih =>
    intro ch hch
    cases hpc : p c
    · rw [splitInclusive, hpc] at hch
      simp only [Bool.false_eq_true, if_false] at hch
      cases h : splitInclusive p cs with
      | nil =>
        rw [h] at hch
        simp only [List.mem_singleton] at hch
        subst hch; simp
      | cons ch2 rest =>
        rw [h] at hch
        rcases List.mem_cons.mp hch with hx | hx
        · subst hx; simp
        · exact ih ch (h ▸ List.mem_cons_of_mem _ hx)
    · rw [splitInclusive, hpc] at hch
      simp only [if_true] at hch
      rcases List.mem_cons.mp hch with hx | hx
      · subst hx; simp
      · exact ih ch hx

/-- Core decomposition: prepending a character to a nonempty chunk changes
only the leading whitespace-split piece of the chunk's token fragments. -/
theorem sep_off_cons (c d : Char) (t : List Char) :
    ∃ (X : List Char) (tail : List (List Char)),
      (sep_off (c :: d :: t)).flatMap split_whitespace =
        split_whitespace (c :: X) ++ tail ∧
      (sep_off (d :: t)).flatMap split_whitespace =
        split_whitespace X ++ tail ∧
      ((X = [] ∧ t = [] ∧ is_separator d = true) ∨ ∃ v, X = d :: v) := by
  obtain ⟨last, hlast⟩ : ∃ y, (d :: t).getLast? = some y := by
    cases h : (d :: t).getLast? with
    | none => exact absurd (List.getLast?_eq_none_iff.mp h) (by simp)
    | some y => exact ⟨y, rfl⟩
  have hlast2 : (c :: d :: t).getLast? = some last := by
    rw [List.getLast?_cons_cons]; exact hlast
  cases hsep : is_separator last
  · refine ⟨d :: t, [], ?_, ?_, Or.inr ⟨t, rfl⟩⟩
    · simp only [sep_off, hlast2, hsep, Bool.false_eq_true, if_false]
      simp [List.flatMap_cons, split_whitespace_nil]
    · simp only [sep_off, hlast, hsep, Bool.false_eq_true, if_false]
      simp [List.flatMap_cons, split_whitespace_nil]
  · refine ⟨(d :: t).dropLast, split_whitespace [last], ?_, ?_, ?_⟩
    · simp only [sep_off, hlast2, hsep, if_true]
      rw [List.dropLast_cons₂]
      simp [List.flatMap_cons]
    · simp only [sep_off, hlast, hsep, if_true]
      simp [List.flatMap_cons]
    · cases t with
      | nil =>
        have hd : last = d := by
          rw [show ([d] : List Char).getLast? = some d from rfl] at hlast
          exact (Option.some_inj.mp hlast).symm
        exact Or.inl ⟨List.dropLast_single, rfl, by rw [← hd]; exact hsep⟩
      | cons e t' => exact Or.inr ⟨(e :: t').dropLast, List.dropLast_cons₂⟩

theorem chunkStream_eq {l : List Char} {ch : List Char} {rest : List (List Char)}
    (h : splitInclusive is_separator l = ch :: rest) :
    chunkStream l = (sep_off ch).flatMap split_whitespace ++
      (rest.flatMap sep_off).flatMap split_whitespace := by
  rw [chunkStream, h, List.flatMap_cons, List.flatMap_append]

theorem chunkStream_nil : chunkStream [] = [] := rfl

theorem sep_off_single_sep {c : Char} (hc : is_separator c = true) :
    sep_off [c] = [[], [c]] := by
  simp [sep_off, hc]

theorem sep_off_single_nonsep {c : Char} (hc : is_separator c = false) :
    sep_off [c] = [[c], []] := by
  simp [sep_off, hc]

theorem sep_off_pair_sep {c c' : Char} (hc' : is_separator c' = true) :
    sep_off [c, c'] = [[c], [c']] := by
  simp [sep_off, hc']

theorem chunkStream_single {c : Char} (hsep : is_separator c = false)
    (hws : isWs c = false) : chunkStream [c] = [[c]] := by
  rw [chunkStream_eq (show splitInclusive is_separator [c] = [[c]] from
    splitInclusive_cons_of_nil hsep rfl)]
  rw [sep_off_single_nonsep hsep]
  simp [List.flatMap_cons, split_whitespace_nil, split_whitespace_single hws]

theorem chunkStream_cons_sep {c : Char} (hc : is_separator c = true)
    (l : List Char) : chunkStream (c :: l) = [c] :: chunkStream l := by
  cases hsi : splitInclusive is_separator l with
  | nil =>
    rw [chunkStream_eq (show splitInclusive is_separator (c :: l) =
      [c] :: [] from by rw [splitInclusive_cons_sep hc, hsi])]
    rw [sep_off_single_sep hc, chunkStream, hsi]
    simp [List.flatMap_cons, split_whitespace_nil,
      split_whitespace_single (sep_not_ws hc)]
  | cons ch rest =>
    rw [chunkStream_eq (show splitInclusive is_separator (c :: l) =
      [c] :: ch :: rest from by rw [splitInclusive_cons_sep hc, hsi])]
    rw [chunkStream_eq hsi]
    rw [sep_off_single_sep hc]
    simp [List.flatMap_cons, List.flatMap_append, split_whitespace_nil,
      split_whitespace_single (sep_not_ws hc)]

theorem chunkStream_cons_ws {c : Char} (hws : isWs c = true) (l : List Char) :
    chunkStream (c :: l) = chunkStream l := by
  have hc : is_separator c = false := ws_not_sep hws
  cases hsi : splitInclusive is_separator l with
  | nil =>
    rw [chunkStream_eq (splitInclusive_cons_of_nil hc hsi)]
    rw [chunkStream, hsi]
    simp only [sep_off, List.getLast?_singleton, hc, Bool.false_eq_true, if_false]
    simp [List.flatMap_cons, split_whitespace_nil, split_whitespace_cons_ws hws]
  | cons ch rest =>
    obtain ⟨d, t, rfl⟩ := List.exists_cons_of_ne_nil
      (splitInclusive_chunks_ne_nil is_separator l ch (hsi ▸ List.mem_cons_self ch rest))
    rw [chunkStream_eq (splitInclusive_cons_nonsep hc hsi), chunkStream_eq hsi]
    obtain ⟨X, tail, hA1, hA2, _⟩ := sep_off_cons c d t
    rw [hA1, hA2, split_whitespace_cons_ws hws]

theorem chunkStream_cons_bound {c c' : Char} (hsep : is_separator c = false)
    (hws : isWs c = false) (hclass : is_separator c' = true ∨ isWs c' = true)
    (l' : List Char) :
    chunkStream (c :: c' :: l') = [c] :: chunkStream (c' :: l') := by
  rcases hclass with hcs | hcw
  · cases hsi : splitInclusive is_separator l' with
    | nil =>
      have h2 : splitInclusive is_separator (c' :: l') = [c'] :: [] := by
        rw [splitInclusive_cons_sep hcs, hsi]
      have h1 : splitInclusive is_separator (c :: c' :: l') = [c, c'] :: [] :=
        splitInclusive_cons_nonsep hsep h2
      rw [chunkStream_eq h1, chunkStream_eq h2]
      rw [sep_off_pair_sep hcs, sep_off_single_sep hcs]
      simp [List.flatMap_cons, split_whitespace_nil, split_whitespace_single hws,
        split_whitespace_single (sep_not_ws hcs)]
    | cons ch rest =>
      have h2 : splitInclusive is_separator (c' :: l') = [c'] :: ch :: rest := by
        rw [splitInclusive_cons_sep hcs, hsi]
      have h1 : splitInclusive is_separator (c :: c' :: l') = [c, c'] :: ch :: rest :=
        splitInclusive_cons_nonsep hsep h2
      rw [chunkStream_eq h1, chunkStream_eq h2]
      rw [sep_off_pair_sep hcs, sep_off_single_sep hcs]
      simp [List.flatMap_cons, List.flatMap_append, split_whitespace_nil,
        split_whitespace_single hws, split_whitespace_single (sep_not_ws hcs)]
  · obtain ⟨u, r, hsi⟩ :
        ∃ u r, splitInclusive is_separator (c' :: l') = (c' :: u) :: r := by
      have hc' : is_separator c' = false := ws_not_sep hcw
      cases h : splitInclusive is_separator l' with
      | nil => exact ⟨[], [], splitInclusive_cons_of_nil hc' h⟩
      | cons ch2 rest2 => exact ⟨ch2, rest2, splitInclusive_cons_nonsep hc' h⟩
    rw [chunkStream_eq (splitInclusive_cons_nonsep hsep hsi), chunkStream_eq hsi]
    obtain ⟨X, tail, hA1, hA2, hX⟩ := sep_off_cons c c' u
    rw [hA1, hA2]
    have hsplit : split_whitespace (c :: X) = [c] :: split_whitespace X := by
      rcases hX with ⟨hXnil, _, hd⟩ | ⟨v, hXv⟩
      · exact absurd hd (by simp [ws_not_sep hcw])
      · subst hXv
        rw [splitWs_cons_cons_ws hws hcw, split_whitespace_cons_ws hcw]
    rw [hsplit]; rfl

theorem chunkStream_cons_glue {c c' : Char} (hc1 : is_separator c = false)
    (hc2 : isWs c = false) (hc'1 : is_separator c' = false)
    (hc'2 : isWs c' = false) (l' : List Char) :
    ∃ a as, chunkStream (c' :: l') = (c' :: a) :: as ∧
      chunkStream (c :: c' :: l') = (c :: c' :: a) :: as := by
  obtain ⟨u, r, hsi⟩ :
      ∃ u r, splitInclusive is_separator (c' :: l') = (c' :: u) :: r := by
    cases h : splitInclusive is_separator l' with
    | nil => exact ⟨[], [], splitInclusive_cons_of_nil hc'1 h⟩
    | cons ch2 rest2 => exact ⟨ch2, rest2, splitInclusive_cons_nonsep hc'1 h⟩
  rw [chunkStream_eq (splitInclusive_cons_nonsep hc1 hsi), chunkStream_eq hsi]
  obtain ⟨X, tail, hA1, hA2, hX⟩ := sep_off_cons c c' u
  rw [hA1, hA2]
  rcases hX with ⟨_, _, hd⟩ | ⟨v, hXv⟩
  · exact absurd hd (by simp [hc'1])
  · subst hXv
    obtain ⟨piece, rest2, hw1, hw2⟩ := splitWs_cons_cons_nonws hc2 hc'2 v
    rw [hw1, hw2]
    exact ⟨piece, rest2 ++ (tail ++ (r.flatMap sep_off).flatMap split_whitespace),
      by simp, by simp⟩

/-- Whitespace is a pure chunk boundary: splitting around a whitespace
character decomposes the chunk stream. -/
theorem chunkStream_ws_append {c : Char} (hws : isWs c = true) (s t : List Char) :
    chunkStream (s ++ c :: t) = chunkStream s ++ chunkStream t := by
  induction s with
  | nil =>
    rw [List.nil_append, chunkStream_cons_ws hws, chunkStream_nil, List.nil_append]
  | cons d s' ih =>
    rw [List.cons_append]
    cases hd : is_separator d
    · cases hdw : isWs d
      · cases s' with
        | nil =>
          rw [List.nil_append, chunkStream_cons_bound hd hdw (Or.inr hws) t,
            chunkStream_cons_ws hws t, chunkStream_single hd hdw]
          rfl
        | cons e s'' =>
          simp only [List.cons_append] at ih ⊢
          cases he : is_separator e
          · cases hew : isWs e
            · obtain ⟨a, as, h1, h2⟩ :=
                chunkStream_cons_glue hd hdw he hew (s'' ++ c :: t)
              obtain ⟨a2, as2, h3, h4⟩ := chunkStream_cons_glue hd hdw he hew s''
              rw [h2, h4]
              rw [h1, h3] at ih
              simp only [List.cons_append, List.cons.injEq] at ih
              obtain ⟨⟨-, ha⟩, has⟩ := ih
              subst ha; subst has
              simp
            · rw [chunkStream_cons_bound hd hdw (Or.inr hew) (s'' ++ c :: t),
                chunkStream_cons_bound hd hdw (Or.inr hew) s'', ih]
              simp
          · rw [chunkStream_cons_bound hd hdw (Or.inl he) (s'' ++ c :: t),
              chunkStream_cons_bound hd hdw (Or.inl he) s'', ih]
            simp
      · rw [chunkStream_cons_ws hdw, chunkStream_cons_ws hdw, ih]
    · rw [chunkStream_cons_sep hd, chunkStream_cons_sep hd, ih]
      simp

theorem splitOnPred_pieces (p : Char → Bool) (l : List Char) :
    ∀ piece ∈ splitOnPred p l, ∀ c ∈ piece, p c = false := by
  induction l with
  | nil =>
    intro piece hp
    simp only [splitOnPred, List.mem_singleton] at hp
    subst hp; simp
  | cons c cs ih =>
    intro piece hp
    cases hpc : p c
    · rw [splitOnPred, hpc] at hp
      simp only [Bool.false_eq_true, if_false] at hp
      cases h : splitOnPred p cs with
      | nil => exact absurd h (splitOnPred_ne_nil p cs)
      | cons p0 r =>
        rw [h] at hp
        rcases List.mem_cons.mp hp with hx | hx
        · subst hx
          intro d hd
          rcases List.mem_cons.mp hd with hdc | hdp
          · subst hdc; exact hpc
          · exact ih p0 (h ▸ List.mem_cons_self p0 r) d hdp
        · exact ih piece (h ▸ List.mem_cons_of_mem _ hx)
    · rw [splitOnPred, hpc] at hp
      simp only [if_true] at hp
      rcases List.mem_cons.mp hp with hx | hx
      · subst hx; simp
      · exact ih piece hx

theorem split_whitespace_pieces (l : List Char) :
    ∀ piece ∈ split_whitespace l, piece ≠ [] ∧ ∀ c ∈ piece, isWs c = false := by
  intro piece hp
  rw [split_whitespace] at hp
  obtain ⟨hmem, hne⟩ := List.mem_filter.mp hp
  refine ⟨by simpa using hne, splitOnPred_pieces isWs l piece hmem⟩

theorem trim_of_ws_free {x : List Char} (h : ∀ c ∈ x, isWs c = false) :
    trim x = x := by
  have hdrop : ∀ y : List Char, (∀ c ∈ y, isWs c = false) → y.dropWhile isWs = y := by
    intro y hy
    cases y with
    | nil => rfl
    | cons a as => rw [List.dropWhile_cons, hy a (List.mem_cons_self a as)]; simp
  rw [trim, hdrop x h, hdrop x.reverse (fun c hc => h c (List.mem_reverse.mp hc)),
    List.reverse_reverse]

theorem map_trim_filter_id (L : List (List Char))
    (h : ∀ x ∈ L, x ≠ [] ∧ trim x = x) :
    (L.map trim).filter (fun v => !v.isEmpty) = L := by
  induction L with
  | nil => rfl
  | cons x xs ih =>
    obtain ⟨hne, htr⟩ := h x (List.mem_cons_self x xs)
    rw [List.map_cons, List.filter_cons, htr]
    have : (!x.isEmpty) = true := by
      cases x with
      | nil => exact absurd rfl hne
      | cons a as => rfl
    rw [this, if_pos rfl, ih (fun y hy => h y (List.mem_cons_of_mem _ hy))]

theorem tokenize_chunks_eq_chunkStream (l : List Char) :
    tokenize_chunks l = chunkStream l := by
  rw [tokenize_chunks]
  exact map_trim_filter_id _ (by
    intro x hx
    rcases List.mem_flatMap.mp hx with ⟨piece, _, hxp⟩
    obtain ⟨hne, hfree⟩ := split_whitespace_pieces piece x hxp
    exact ⟨hne, trim_of_ws_free hfree⟩)

/-- Whitespace is a pure token-stream boundary for the tokenizer. -/
theorem tokenizeL_ws_append {c : Char} (hws : isWs c = true) (s t : List Char) :
    tokenizeL (s ++ c :: t) = tokenizeL s ++ tokenizeL t := by
  rw [tokenizeL, tokenizeL, tokenizeL, tokenize_chunks_eq_chunkStream,
    tokenize_chunks_eq_chunkStream, tokenize_chunks_eq_chunkStream,
    chunkStream_ws_append hws, List.map_append]

/-- Counterexample to claim C9: whitespace inside a literal does change
the token stream — removing the space of `"1 000"` yields `"1000"`, whose
stream is the single token 1000 rather than the two tokens 1 and 0. -/
theorem C9_counterexample : tokenize "1 000" ≠ tokenize "1000" := by decide

/-- Claim C9 as amended: a whitespace character is a pure token-stream
boundary — tokenizing around it concatenates the two streams, so
whitespace between complete literals and operators never changes the
stream, and in particular `"1+1"` and `"1 + 1"` tokenize identically; but
whitespace inside a literal splits it into separate value tokens
(`"1 000"` tokenizes to 1 and 0, not to 1000). -/
theorem C9_whitespace_boundary :
    (∀ (c : Char) (s t : List Char), isWs c = true →
      tokenizeL (s ++ c :: t) = tokenizeL s ++ tokenizeL t) ∧
    tokenize "1+1" = tokenize "1 + 1" ∧
    tokenize "1 000" =
      [Except.ok (Token.value ⟨1, 0⟩), Except.ok (Token.value ⟨0, 0⟩)] ∧
    tokenize "1000" = [Except.ok (Token.value ⟨1000, 0⟩)] :=
  ⟨fun c s t hc => tokenizeL_ws_append hc s t, rfl, rfl, rfl⟩

/-- Witness for C9 at the space character and the parts of `"1 + 1"`. -/
theorem C9_witness :
    tokenizeL ([ '1' ] ++ ' ' :: [ '+', ' ', '1' ]) =
      tokenizeL [ '1' ] ++ tokenizeL [ '+', ' ', '1' ] :=
  C9_whitespace_boundary.1 ' ' [ '1' ] [ '+', ' ', '1' ] rfl

end Calculator
